import Mathlib

/-!
Verification of the HTTP message parser (`http_parser.c`) of the krzhou/http-proxy
repository, against its natural-language specification.

Modelling conventions, chosen to mirror the C source faithfully:
* A C string (the bytes stored in memory up to, and excluding, the terminating
  0 byte) is a `List Char`.  A `char *` value that may be `NULL` is an
  `Option (List Char)`; `none` is `NULL`.
* `strstr`, `atoi`, and the source's own helpers are translated one-for-one.
  `strstr buf pat` returns the index of the first occurrence of `pat` in the
  null-terminated string `buf` -- note that this scans the whole stored string,
  not a caller-declared length.
* Out-parameters are modelled by explicit state passing: each function takes the
  caller-supplied initial values of its `out_*` slots and returns their final
  values.  `malloc` is assumed to succeed (its failure branches only log and
  return early; no claim concerns them).
* Undefined behaviour that the claims touch (out-of-bounds `memcpy`, pointer
  arithmetic on `NULL`, reading an uninitialised local, reading before the start
  of a buffer) is made explicit: functions whose C code can reach such a state
  return a distinguished `ub`-style value there.
* The header-scanning `while` loops of `parse_request_head` /
  `parse_response_head` have no termination argument in the C source (the cursor
  can move backwards), so they are modelled with explicit fuel.
-/

/-- The delimiter `" "`. -/
def sp : List Char := [' ']

/-- The delimiter `":"`. -/
def colon : List Char := [':']

/-- The delimiter `": "`. -/
def colonsp : List Char := [':', ' ']

/-- The delimiter `"\r\n"`. -/
def crlf : List Char := ['\r', '\n']

/-- The head/body separator `"\r\n\r\n"`. -/
def crlf2 : List Char := ['\r', '\n', '\r', '\n']

/-- The header name `"Host"`. -/
def hostStr : List Char := "Host".toList

/-- The header name `"Content-Length"`. -/
def contentLengthStr : List Char := "Content-Length".toList

/-- The header name `"Cache-Control"`. -/
def cacheControlStr : List Char := "Cache-Control".toList

/-- Auxiliary for `strstr`: index of the first occurrence of `pat` in the
second argument, scanning left to right. -/
def findFrom (pat : List Char) : List Char → Option Nat
  | [] => if pat.isPrefixOf ([] : List Char) then some 0 else none
  | c :: t =>
    if pat.isPrefixOf (c :: t) then some 0
    else (findFrom pat t).map (· + 1)

/-- C `strstr(s, pat)`: offset of the first occurrence of `pat` in the
null-terminated string `s`, or `none` when `pat` does not occur. -/
def strstr (s pat : List Char) : Option Nat := findFrom pat s

/-- C `isspace` on the characters `atoi` skips. -/
def isSpaceC (c : Char) : Bool :=
  c == ' ' || c == '\t' || c == '\n' || c == '\r' || c.toNat == 11 || c.toNat == 12

/-- Value of the leading digit run (C `atoi` digit loop): consumes digits from
the front, accumulating into `acc`, and stops at the first non-digit. -/
def digitsVal : List Char → Nat → Nat
  | [], acc => acc
  | c :: t, acc => if c.isDigit then digitsVal t (acc * 10 + (c.toNat - 48)) else acc

/-- C `atoi`: skip whitespace, read an optional sign, then decode the leading
run of digits; a string with no leading digits decodes to 0. -/
def atoi (s : List Char) : Int :=
  match s.dropWhile isSpaceC with
  | [] => 0
  | c :: r =>
    if c = '-' then -(digitsVal r 0 : Int)
    else if c = '+' then (digitsVal r 0 : Int)
    else (digitsVal (c :: r) 0 : Int)

/-- Function `get_prefix` from `http_parser.c` (named `get_prefix_c` here; the trailing
marker avoids a clash with notational keywords).  On success it returns the
copied prefix together with the cursor `end` (the suffix starting right after
the delimiter); `none` models the C function returning `NULL` with
`*out_prefix` unwritten (input `NULL`, or delimiter not found). -/
def get_prefix_c (str : Option (List Char)) (delim : List Char) :
    Option (List Char × List Char) :=
  match str with
  | none => none
  | some s =>
    match strstr s delim with
    | none => none
    | some i => some (s.take i, s.drop (i + delim.length))

/-- The four out-slots of `parse_body_head`, holding the caller-visible values
of `*out_head`, `*out_head_len`, `*out_body`, `*out_body_len`. -/
structure SplitOut where
  out_head : Option (List Char)
  out_head_len : Int
  out_body : Option (List Char)
  out_body_len : Int
deriving DecidableEq

/-- Function `parse_body_head` from `http_parser.c`.  `buf` is the stored
(null-terminated) string, `n` the caller-declared byte size, `s` the initial
values of the four out-slots.  The C code searches `strstr(buf, "\r\n\r\n")` --
over the whole stored string, regardless of `n` -- and on a hit copies
`head = buf[0 .. pos+2)` and then `memcpy`s `n - (pos+2) - 2` bytes (computed in
unsigned arithmetic) from `buf + pos + 4` as the body.  A body `memcpy` that
reads past the end of the stored buffer is undefined behaviour, modelled as the
result `none`; otherwise the final slot values are returned. -/
def parse_body_head (buf : Option (List Char)) (n : Int) (s : SplitOut) :
    Option SplitOut :=
  match buf with
  | none => some s
  | some b =>
    match strstr b crlf2 with
    | none => some s
    | some pos =>
      if pos + 4 + ((n - (pos : Int) - 4) % (2 ^ 32 : Int)).toNat ≤ b.length then
        some { out_head := some (b.take (pos + 2)),
               out_head_len := ((pos : Int) + 2),
               out_body :=
                 some ((b.drop (pos + 4)).take
                   (((n - (pos : Int) - 4) % (2 ^ 32 : Int)).toNat)),
               out_body_len := ((((n - (pos : Int) - 4) % (2 ^ 32 : Int)).toNat : Nat) : Int) }
      else none

/-- Function `parse_request_line` from `http_parser.c`: tokenize method on `" "`, URL on
`" "`, version on `"\r\n"`, in that order.  `some (method, url, version, k)`
models success with return value `k = st - line` (the consumed length); `none`
models the C return value `-1`. -/
def parse_request_line (line : Option (List Char)) :
    Option (List Char × List Char × List Char × Nat) :=
  match line with
  | none => none
  | some l =>
    match get_prefix_c (some l) sp with
    | none => none
    | some (m, r1) =>
      match get_prefix_c (some r1) sp with
      | none => none
      | some (u, r2) =>
        match get_prefix_c (some r2) crlf with
        | none => none
        | some (_v, r3) => some (m, u, _v, l.length - r3.length)

/-- Function `parse_header_line` from `http_parser.c`.  `name0`/`value0` are the values
of the caller's `name`/`value` slots before the call; the function returns the
final slot values and the C return value (`-1` on failure).  Note the C code
writes `*out_name` even when the later `"\r\n"` search fails. -/
def parse_header_line (line : Option (List Char))
    (name0 value0 : Option (List Char)) :
    Option (List Char) × Option (List Char) × Int :=
  match line with
  | none => (name0, value0, -1)
  | some l =>
    match get_prefix_c (some l) colonsp with
    | none => (name0, value0, -1)
    | some (nm, r1) =>
      match get_prefix_c (some r1) crlf with
      | none => (some nm, value0, -1)
      | some (v, r2) => (some nm, some v, ((l.length - r2.length : Nat) : Int))

/-- Function `parse_host_field` from `http_parser.c`: split on the first `":"`.  Takes
the initial values of the `*out_hostname` and `*out_port` slots and returns
their final values. -/
def parse_host_field (host : List Char) (_hostname0 : Option (List Char))
    (port0 : Int) : Option (List Char) × Int :=
  match get_prefix_c (some host) colon with
  | none => (some host, port0)
  | some (pre, rest) =>
    if rest.length > 0 then (some pre, atoi rest) else (some pre, port0)

/-- The three out-slots of `parse_status_line`. -/
structure StatusOut where
  out_version : Option (List Char)
  out_status_code : Int
  out_phrase : Option (List Char)
deriving DecidableEq

/-- Result of `parse_status_line`: a normal return (final slot values plus the
C return value), or undefined behaviour. -/
inductive SLResult where
  | ret : StatusOut → Int → SLResult
  | ub : SLResult
deriving DecidableEq

/-- Function `parse_status_line` from `http_parser.c`.  The C code checks
`*out_version == NULL` (not the returned cursor) after the first `get_prefix`,
reads the uninitialised local `status_code` (modelled by the arbitrary initial
value `g`) when the second `get_prefix` fails, and checks `*out_phrase == NULL`
after the third.  Paths that do pointer arithmetic on `NULL` or pass garbage to
`atoi` are undefined behaviour (`SLResult.ub`). -/
def parse_status_line (line : Option (List Char)) (s : StatusOut)
    (g : Option (List Char)) : SLResult :=
  match line with
  | none =>
    if s.out_version = none then .ret s (-1)
    else if g = none then .ret s (-1)
    else .ub
  | some l =>
    match get_prefix_c (some l) sp with
    | none =>
      if s.out_version = none then .ret s (-1)
      else if g = none then .ret s (-1)
      else .ub
    | some (v, r1) =>
      match get_prefix_c (some r1) sp with
      | none =>
        if g = none then .ret { s with out_version := some v } (-1) else .ub
      | some (sc, r2) =>
        match get_prefix_c (some r2) crlf with
        | none =>
          if s.out_phrase = none then
            .ret { s with out_version := some v, out_status_code := atoi sc } (-1)
          else .ub
        | some (ph, r3) =>
          .ret { out_version := some v, out_status_code := atoi sc,
                 out_phrase := some ph }
            ((l.length - r3.length : Nat) : Int)

/-- Result of a header-scanning loop: normal exit with the final folded state,
fuel exhaustion (the C loop is still running), or undefined behaviour (the
cursor moved before the start of the buffer, so the C code reads out of
bounds). -/
inductive LoopResult (α : Type) where
  | ok : α → LoopResult α
  | outOfFuel : LoopResult α
  | ub : LoopResult α
deriving DecidableEq

/-- The header loop of `parse_request_head` (`while (st < end) { ... }`),
with explicit fuel.  `full` is the whole request string, `st` the cursor offset
(C pointer minus buffer start; it can become negative, since the loop adds the
`-1` returned by a failed `parse_header_line` to it), `endP` the offset of the
end of the request.  The `name`/`value` slots are reset to `NULL` on every
iteration, as in the C code. -/
def requestHeaderLoop : Nat → List Char → Int → Int → Option (List Char) →
    LoopResult (Option (List Char))
  | 0, _, _, _, _ => .outOfFuel
  | fuel + 1, full, st, endP, host =>
    if st < endP then
      if st < 0 then .ub
      else
        match parse_header_line (some (full.drop st.toNat)) none none with
        | (nm, v, len) =>
          if nm = some hostStr then requestHeaderLoop fuel full (st + len) endP v
          else requestHeaderLoop fuel full (st + len) endP host
    else .ok host

/-- Function `parse_request_head` from `http_parser.c`: parse the request line, add its
return value (possibly `-1`) to the cursor, then fold the header lines,
capturing the value of the `"Host"` header.  The method/url/version out-slots
are exactly the outputs of `parse_request_line` and are not re-modelled here;
the returned state is the `*out_host` slot. -/
def parse_request_head (fuel : Nat) (request : List Char)
    (host0 : Option (List Char)) : LoopResult (Option (List Char)) :=
  let len : Int :=
    match parse_request_line (some request) with
    | none => -1
    | some (_, _, _, k) => (k : Int)
  requestHeaderLoop fuel request len (request.length : Int) host0

/-- The header loop of `parse_response_head`, with explicit fuel.  The folded
state is the `*out_content_length` and `*out_cache_control` slots.  A
`"Content-Length"` header whose value slot is still `NULL` (the `"\r\n"` search
failed) makes the C code call `atoi(NULL)`: undefined behaviour. -/
def responseHeaderLoop : Nat → List Char → Int → Int → Int → Option (List Char) →
    LoopResult (Int × Option (List Char))
  | 0, _, _, _, _, _ => .outOfFuel
  | fuel + 1, full, st, endP, clen, cc =>
    if st < endP then
      if st < 0 then .ub
      else
        match parse_header_line (some (full.drop st.toNat)) none none with
        | (nm, v, len) =>
          if nm = some contentLengthStr then
            match v with
            | none => .ub
            | some vl => responseHeaderLoop fuel full (st + len) endP (atoi vl) cc
          else if nm = some cacheControlStr then
            responseHeaderLoop fuel full (st + len) endP clen v
          else responseHeaderLoop fuel full (st + len) endP clen cc
    else .ok (clen, cc)

/-- Function `parse_response_head` from `http_parser.c`: parse the status line, add its
return value (possibly `-1`) to the cursor, then fold the header lines,
capturing `Content-Length` (via `atoi`) and `Cache-Control`.  `s` holds the
initial status-line out-slots, `g` the garbage initial value of the local
`status_code`, `clen0`/`cc0` the initial values of the content-length and
cache-control out-slots. -/
def parse_response_head (fuel : Nat) (response : List Char) (s : StatusOut)
    (g : Option (List Char)) (clen0 : Int) (cc0 : Option (List Char)) :
    LoopResult (StatusOut × Int × Option (List Char)) :=
  match parse_status_line (some response) s g with
  | .ub => .ub
  | .ret s1 len =>
    match responseHeaderLoop fuel response len (response.length : Int) clen0 cc0 with
    | .ok (clen, cc) => .ok (s1, clen, cc)
    | .outOfFuel => .outOfFuel
    | .ub => .ub

/-- Function `parse_cache_control` from `http_parser.c`: find `"max-age="`; if absent or
at the very end of the string, the `*out_max_age` slot (initial value `ma0`)
is left unchanged; otherwise decode what follows with `atoi`. -/
def parse_cache_control (cache_control : Option (List Char)) (ma0 : Int) : Int :=
  match cache_control with
  | none => ma0
  | some s =>
    match strstr s "max-age=".toList with
    | none => ma0
    | some i =>
      if i + 8 ≥ s.length then ma0
      else atoi (s.drop (i + 8))

/-! ### Lemmas about `strstr` -/

/-- Theorem: `strstr` computes the offset of the *first* occurrence: `strstr s pat` is
`some i` exactly when `pat` starts at offset `i` of `s` and at no earlier
offset. -/
theorem strstr_some_iff (s pat : List Char) (i : Nat) :
    strstr s pat = some i ↔
      (pat.isPrefixOf (s.drop i) = true ∧
       ∀ j, j < i → pat.isPrefixOf (s.drop j) = false) := by
  induction s generalizing i with
  | nil =>
    cases hp : pat.isPrefixOf ([] : List Char) with
    | false => simp [strstr, findFrom, hp]
    | true =>
      have hL : strstr ([] : List Char) pat = some 0 := by simp [strstr, findFrom, hp]
      rw [hL]
      constructor
      · intro h
        cases h
        exact ⟨by simpa using hp, fun j hj => absurd hj (by omega)⟩
      · rintro ⟨h1, h2⟩
        rcases Nat.eq_zero_or_pos i with rfl | h0
        · rfl
        · have h3 := h2 0 h0
          rw [List.drop_nil, hp] at h3
          exact absurd h3 (by simp)
  | cons c t ih =>
    cases hp : pat.isPrefixOf (c :: t) with
    | true =>
      have hL : strstr (c :: t) pat = some 0 := by simp [strstr, findFrom, hp]
      rw [hL]
      constructor
      · intro h
        cases h
        exact ⟨by simpa using hp, fun j hj => absurd hj (by omega)⟩
      · rintro ⟨h1, h2⟩
        rcases Nat.eq_zero_or_pos i with rfl | h0
        · rfl
        · have h3 := h2 0 h0
          rw [List.drop_zero, hp] at h3
          exact absurd h3 (by simp)
    | false =>
      have hL : strstr (c :: t) pat = (findFrom pat t).map (· + 1) := by
        simp [strstr, findFrom, hp]
      rw [hL]
      cases i with
      | zero =>
        constructor
        · intro h
          rcases Option.map_eq_some'.mp h with ⟨a, -, hak⟩
          omega
        · rintro ⟨h1, -⟩
          rw [List.drop_zero, hp] at h1
          exact absurd h1 (by simp)
      | succ k =>
        rw [List.drop_succ_cons]
        have hmap : ((findFrom pat t).map (· + 1) = some (k + 1)) ↔
            (findFrom pat t = some k) := by
          constructor
          · intro h
            rcases Option.map_eq_some'.mp h with ⟨a, ha, hak⟩
            have ha' : a = k := by omega
            rw [ha'] at ha
            exact ha
          · intro h
            rw [h]
            rfl
        rw [hmap]
        have ih' := ih k
        unfold strstr at ih'
        rw [ih']
        constructor
        · rintro ⟨h1, h2⟩
          refine ⟨h1, ?_⟩
          intro j hj
          cases j with
          | zero =>
            rw [List.drop_zero]
            exact hp
          | succ j' =>
            rw [List.drop_succ_cons]
            exact h2 j' (by omega)
        · rintro ⟨h1, h2⟩
          refine ⟨h1, ?_⟩
          intro j hj
          have h3 := h2 (j + 1) (by omega)
          rwa [List.drop_succ_cons] at h3

/-- Theorem: `strstr s pat = none` exactly when `pat` starts at no offset of `s`. -/
theorem strstr_none_iff (s pat : List Char) :
    strstr s pat = none ↔ ∀ j, pat.isPrefixOf (s.drop j) = false := by
  induction s with
  | nil =>
    cases hp : pat.isPrefixOf ([] : List Char) with
    | false => simp [strstr, findFrom, hp]
    | true =>
      have hL : strstr ([] : List Char) pat = some 0 := by simp [strstr, findFrom, hp]
      rw [hL]
      constructor
      · intro h
        exact absurd h (by simp)
      · intro h
        have h3 := h 0
        rw [List.drop_nil, hp] at h3
        exact absurd h3 (by simp)
  | cons c t ih =>
    cases hp : pat.isPrefixOf (c :: t) with
    | true =>
      have hL : strstr (c :: t) pat = some 0 := by simp [strstr, findFrom, hp]
      rw [hL]
      constructor
      · intro h
        exact absurd h (by simp)
      · intro h
        have h3 := h 0
        rw [List.drop_zero, hp] at h3
        exact absurd h3 (by simp)
    | false =>
      have hL : strstr (c :: t) pat = (findFrom pat t).map (· + 1) := by
        simp [strstr, findFrom, hp]
      rw [hL]
      rw [Option.map_eq_none']
      have ih' := ih
      unfold strstr at ih'
      rw [ih']
      constructor
      · intro h j
        cases j with
        | zero =>
          rw [List.drop_zero]
          exact hp
        | succ j' =>
          rw [List.drop_succ_cons]
          exact h j'
      · intro h j
        have h3 := h (j + 1)
        rwa [List.drop_succ_cons] at h3

/-- Taking the length of the left part of an append returns that part. -/
theorem take_append_len (m r : List Char) : (m ++ r).take m.length = m := by
  induction m with
  | nil => simp
  | cons c t ih => simp [ih]

/-- Dropping the length of the left part plus `k` drops `k` of the right part. -/
theorem drop_append_add (m r : List Char) (k : Nat) :
    (m ++ r).drop (m.length + k) = r.drop k := by
  induction m with
  | nil => simp
  | cons c t ih =>
    have h1 : (c :: t).length + k = (t.length + k) + 1 := by
      simp
      omega
    rw [h1, List.cons_append, List.drop_succ_cons, ih]

/-- A single-character delimiter that does not occur in `m` is first found, in
`m ++ c :: r`, exactly at offset `m.length`. -/
theorem strstr_append_singleton (m r : List Char) (c : Char) (hm : c ∉ m) :
    strstr (m ++ c :: r) [c] = some m.length := by
  induction m with
  | nil =>
    have : [c].isPrefixOf (c :: r) = true := by simp [List.isPrefixOf]
    simp [strstr, findFrom, this]
  | cons d t ih =>
    have hdc : c ∉ t := fun h => hm (List.mem_cons_of_mem d h)
    have hne : ¬([c].isPrefixOf (d :: (t ++ c :: r)) = true) := by
      simp only [List.isPrefixOf, List.isPrefixOf_nil_left, Bool.and_true]
      intro h
      exact hm (by simp [List.mem_cons, (beq_iff_eq.mp h).symm])
    have ih' := ih hdc
    unfold strstr at ih'
    simp [strstr, findFrom, hne, ih']

/-- If `"\r\n"` does not occur in `v`, then in `v ++ "\r\n" ++ w` it is first
found exactly at offset `v.length`. -/
theorem strstr_append_crlf (v w : List Char) (hv : strstr v crlf = none) :
    strstr (v ++ crlf ++ w) crlf = some v.length := by
  induction v with
  | nil =>
    have h1 : crlf.isPrefixOf ('\r' :: '\n' :: w) = true :=
      List.isPrefixOf_iff_prefix.mpr ⟨w, rfl⟩
    show findFrom crlf ('\r' :: '\n' :: w) = some 0
    simp only [findFrom]
    rw [h1]
    simp
  | cons c t ih =>
    have hsplit : crlf.isPrefixOf (c :: t) = false ∧ strstr t crlf = none := by
      cases hpp : crlf.isPrefixOf (c :: t) with
      | true =>
        have h0 : strstr (c :: t) crlf = some 0 := by simp [strstr, findFrom, hpp]
        rw [h0] at hv
        exact absurd hv (by simp)
      | false =>
        have hLL : strstr (c :: t) crlf = (findFrom crlf t).map (· + 1) := by
          simp [strstr, findFrom, hpp]
        rw [hLL, Option.map_eq_none'] at hv
        exact ⟨rfl, hv⟩
    have ihres2 : findFrom crlf (t ++ crlf ++ w) = some t.length := by
      have h := ih hsplit.2
      unfold strstr at h
      exact h
    have hne : crlf.isPrefixOf (c :: (t ++ crlf ++ w)) = false := by
      cases t with
      | nil =>
        simp [crlf, List.isPrefixOf]
      | cons d t2 =>
        have h1 := hsplit.1
        simp only [crlf, List.isPrefixOf, Bool.and_eq_false_iff] at h1 ⊢
        rcases h1 with h | h
        · exact Or.inl h
        · rcases h with h | h
          · exact Or.inr (Or.inl h)
          · exact absurd (List.isPrefixOf_nil_left (l := t2)) (by rw [h]; simp)
    show findFrom crlf (c :: (t ++ crlf ++ w)) = some (t.length + 1)
    simp only [findFrom]
    rw [hne, ihres2]
    simp

/-- A single character occurs in `l` exactly when `strstr` finds it. -/
theorem strstr_singleton_none (l : List Char) (c : Char) :
    strstr l [c] = none ↔ c ∉ l := by
  induction l with
  | nil => simp [strstr, findFrom]
  | cons d t ih =>
    cases hd : ([c].isPrefixOf (d :: t)) with
    | true =>
      have h0 : strstr (d :: t) [c] = some 0 := by simp [strstr, findFrom, hd]
      rw [h0]
      have hcd : c = d := by
        have := List.isPrefixOf_iff_prefix.mp hd
        rcases this with ⟨s, hs⟩
        exact (List.cons_eq_cons.mp hs).1
      simp [hcd]
    | false =>
      have hL : strstr (d :: t) [c] = (findFrom [c] t).map (· + 1) := by
        simp [strstr, findFrom, hd]
      rw [hL, Option.map_eq_none']
      have ih' := ih
      unfold strstr at ih'
      rw [ih']
      have hcd : c ≠ d := by
        intro h
        rw [h] at hd
        have : [d].isPrefixOf (d :: t) = true :=
          List.isPrefixOf_iff_prefix.mpr ⟨t, rfl⟩
        rw [this] at hd
        exact absurd hd (by simp)
      simp [List.mem_cons, hcd]

/-- If `strstr` finds no occurrence in `l`, it finds none in any suffix. -/
theorem strstr_none_drop (l pat : List Char) (k : Nat)
    (h : strstr l pat = none) : strstr (l.drop k) pat = none := by
  rw [strstr_none_iff] at h ⊢
  intro j
  rw [List.drop_drop]
  have h2 := h (j + k)
  rwa [Nat.add_comm j k] at h2

/-- Lemma: `get_prefix` on `m ++ c :: r` with single-character delimiter `c` not
occurring in `m` returns the prefix `m` and the cursor `r`. -/
theorem gp_single (m r : List Char) (c : Char) (hm : c ∉ m) :
    get_prefix_c (some (m ++ c :: r)) [c] = some (m, r) := by
  have hs := strstr_append_singleton m r c hm
  simp only [get_prefix_c, hs]
  rw [take_append_len]
  have hd : (m ++ c :: r).drop (m.length + 1) = r := drop_append_add m (c :: r) 1
  rw [show m.length + [c].length = m.length + 1 from rfl, hd]

/-- Lemma: `get_prefix` on `v ++ "\r\n" ++ w` with `"\r\n"` not occurring in `v`
returns the prefix `v` and the cursor `w`. -/
theorem gp_crlf (v w : List Char) (hv : strstr v crlf = none) :
    get_prefix_c (some (v ++ crlf ++ w)) crlf = some (v, w) := by
  have hs := strstr_append_crlf v w hv
  simp only [get_prefix_c, hs]
  have ht : (v ++ crlf ++ w).take v.length = v := by
    rw [List.append_assoc]
    exact take_append_len v (crlf ++ w)
  have hd : (v ++ crlf ++ w).drop (v.length + 2) = w := by
    rw [List.append_assoc]
    have h2 := drop_append_add v (crlf ++ w) 2
    rw [h2]
    rfl
  rw [ht, show v.length + crlf.length = v.length + 2 from rfl, hd]

/-- Lemma: `get_prefix` fails on `l` with delimiter `[c]` when `c` does not occur. -/
theorem gp_single_none (l : List Char) (c : Char) (hm : c ∉ l) :
    get_prefix_c (some l) [c] = none := by
  have hs : strstr l [c] = none := (strstr_singleton_none l c).mpr hm
  simp [get_prefix_c, hs]

/-- The cursor returned by a successful `get_prefix` is a suffix (a `drop`)
of the input. -/
theorem gp_rest_drop (s d p r : List Char)
    (h : get_prefix_c (some s) d = some (p, r)) : ∃ k, r = s.drop k := by
  simp only [get_prefix_c] at h
  cases hs : strstr s d with
  | none => rw [hs] at h; cases h
  | some i =>
    rw [hs] at h
    cases h
    exact ⟨i + d.length, rfl⟩

/-- Lemma: `digitsVal` of a list with a non-digit head (or empty) keeps the
accumulator. -/
theorem digitsVal_no_lead (l : List Char)
    (h : ∀ c ∈ l, c.isDigit = false) : digitsVal l 0 = 0 := by
  cases l with
  | nil => rfl
  | cons c t =>
    have hc := h c (List.mem_cons_self c t)
    simp [digitsVal, hc]

/-- C `atoi` on a string containing no digit characters returns 0: the
documented non-numeric-decodes-to-0 leniency. -/
theorem atoi_no_digit (l : List Char)
    (h : l.all (fun c => !c.isDigit) = true) : atoi l = 0 := by
  have h' : ∀ c ∈ l, c.isDigit = false := by
    intro c hc
    have := (List.all_eq_true.mp h) c hc
    simpa using this
  have hsub : ∀ c ∈ l.dropWhile isSpaceC, c.isDigit = false := fun c hc =>
    h' c (((List.dropWhile_suffix isSpaceC).sublist).subset hc)
  unfold atoi
  cases hd : l.dropWhile isSpaceC with
  | nil => rfl
  | cons c t =>
    have hct : ∀ x ∈ t, x.isDigit = false := by
      intro x hx
      exact hsub x (by rw [hd]; exact List.mem_cons_of_mem c hx)
    have hc : c.isDigit = false := hsub c (by rw [hd]; exact List.mem_cons_self c t)
    by_cases h1 : c = '-'
    · simp [h1, digitsVal_no_lead t hct]
    · by_cases h2 : c = '+'
      · simp [h1, h2, digitsVal_no_lead t hct]
      · have : digitsVal (c :: t) 0 = 0 := by simp [digitsVal, hc]
        simp [h1, h2, this]

/-! ### Claim theorems -/

/-- C7: for every input string in which the delimiter occurs, `get_prefix`
returns as prefix the substring strictly before the first occurrence of the
delimiter (empty when the input starts with the delimiter, in particular when
the input equals the delimiter itself, which is not NotFound) and returns the
cursor positioned immediately after the delimiter's last byte. -/
theorem get_prefix_c_spec :
    (∀ (s d : List Char) (i : Nat),
        d.isPrefixOf (s.drop i) = true →
        (∀ j, j < i → d.isPrefixOf (s.drop j) = false) →
        get_prefix_c (some s) d = some (s.take i, s.drop (i + d.length))) ∧
    (∀ d : List Char, get_prefix_c (some d) d = some ([], [])) := by
  constructor
  · intro s d i h1 h2
    have hs : strstr s d = some i := (strstr_some_iff s d i).mpr ⟨h1, h2⟩
    simp [get_prefix_c, hs]
  · intro d
    have h0 : d.isPrefixOf d = true := List.isPrefixOf_iff_prefix.mpr ⟨[], by simp⟩
    have hs : strstr d d = some 0 := by
      refine (strstr_some_iff d d 0).mpr ⟨by simp, ?_⟩
      intro j hj
      omega
    simp [get_prefix_c, hs]

/-- Witness for C7 at a concrete input: `get_prefix("ab:cd", ":")` yields
prefix `"ab"` and cursor `"cd"`. -/
theorem get_prefix_c_spec_witness :
    get_prefix_c (some "ab:cd".toList) [':'] = some ("ab".toList, "cd".toList) :=
  get_prefix_c_spec.1 "ab:cd".toList [':'] 2 (by decide) (by decide)

/-- C6: `parse_request_line` tokenizes method on `" "`, then URL on `" "`,
then version on `"\r\n"`, in that order; if any of the three delimiters is
missing the whole line is Invalid (the C return value `-1`, modelled `none`),
and otherwise the returned consumed length is the byte offset of the position
right after the terminating `"\r\n"`. -/
theorem parse_request_line_spec :
    (∀ (m u vv rest : List Char), ' ' ∉ m → ' ' ∉ u → strstr vv crlf = none →
        parse_request_line (some (m ++ ' ' :: (u ++ ' ' :: (vv ++ crlf ++ rest)))) =
          some (m, u, vv, m.length + u.length + vv.length + 4)) ∧
    (∀ l : List Char, ' ' ∉ l → parse_request_line (some l) = none) ∧
    (∀ (m r : List Char), ' ' ∉ m → ' ' ∉ r →
        parse_request_line (some (m ++ ' ' :: r)) = none) ∧
    (∀ l : List Char, strstr l crlf = none → parse_request_line (some l) = none) := by
  refine ⟨?_, ?_, ?_, ?_⟩
  · intro m u vv rest hm hu hv
    have h1 : get_prefix_c (some (m ++ ' ' :: (u ++ ' ' :: (vv ++ crlf ++ rest)))) sp =
        some (m, u ++ ' ' :: (vv ++ crlf ++ rest)) := gp_single m _ ' ' hm
    have h2 : get_prefix_c (some (u ++ ' ' :: (vv ++ crlf ++ rest))) sp =
        some (u, vv ++ crlf ++ rest) := gp_single u _ ' ' hu
    have h3 : get_prefix_c (some (vv ++ crlf ++ rest)) crlf = some (vv, rest) :=
      gp_crlf vv rest hv
    simp only [parse_request_line, h1, h2, h3]
    have hlen : (m ++ ' ' :: (u ++ ' ' :: (vv ++ crlf ++ rest))).length - rest.length =
        m.length + u.length + vv.length + 4 := by
      simp [crlf]
      omega
    rw [hlen]
  · intro l hl
    have h1 : get_prefix_c (some l) sp = none := gp_single_none l ' ' hl
    simp [parse_request_line, h1]
  · intro m r hm hr
    have h1 : get_prefix_c (some (m ++ ' ' :: r)) sp = some (m, r) :=
      gp_single m r ' ' hm
    have h2 : get_prefix_c (some r) sp = none := gp_single_none r ' ' hr
    simp [parse_request_line, h1, h2]
  · intro l hl
    cases hg1 : get_prefix_c (some l) sp with
    | none => simp [parse_request_line, hg1]
    | some p1 =>
      obtain ⟨m, r1⟩ := p1
      rcases gp_rest_drop l sp m r1 hg1 with ⟨k1, hk1⟩
      cases hg2 : get_prefix_c (some r1) sp with
      | none => simp [parse_request_line, hg1, hg2]
      | some p2 =>
        obtain ⟨u, r2⟩ := p2
        rcases gp_rest_drop r1 sp u r2 hg2 with ⟨k2, hk2⟩
        have hr2 : strstr r2 crlf = none := by
          rw [hk2, hk1]
          rw [List.drop_drop]
          exact strstr_none_drop l crlf (k1 + k2) hl
        have h3 : get_prefix_c (some r2) crlf = none := by
          simp [get_prefix_c, hr2]
        simp [parse_request_line, hg1, hg2, h3]

/-- Witness for C6 at a concrete input: parsing
`"GET /x HTTP/1.1\r\nrest"` yields the three tokens and consumed length 17. -/
theorem parse_request_line_spec_witness :
    parse_request_line (some "GET /x HTTP/1.1\r\nrest".toList) =
      some ("GET".toList, "/x".toList, "HTTP/1.1".toList, 17) :=
  parse_request_line_spec.1 "GET".toList "/x".toList "HTTP/1.1".toList
    "rest".toList (by decide) (by decide) (by decide)

/-- C5 counterexample: on the input `"Junk\r\nHost: a.com\r\n"`, whose header
line -- the text `"Junk"` strictly before its terminating `"\r\n"` (first
`"\r\n"` at offset 4 and nowhere earlier) -- contains no `": "`,
`parse_header_line` does NOT return Invalid: the `": "` search runs past the
line's own `"\r\n"`, finds the `": "` of the following line, and the call
succeeds with consumed length 19 and a name that crosses the line boundary. -/
theorem parse_header_line_crosses_lines :
    strstr ("Junk\r\nHost: a.com\r\n".toList.take 4) colonsp = none ∧
    crlf.isPrefixOf ("Junk\r\nHost: a.com\r\n".toList.drop 4) = true ∧
    (∀ j, j < 4 → crlf.isPrefixOf ("Junk\r\nHost: a.com\r\n".toList.drop j) = false) ∧
    parse_header_line (some "Junk\r\nHost: a.com\r\n".toList) none none =
      (some "Junk\r\nHost".toList, some "a.com".toList, 19) := by
  decide

/-- C5 amended: for every input that contains no `": "` anywhere (not merely
in the text before its first `"\r\n"`), `parse_header_line` returns Invalid
(`-1`), leaving the caller's name and value slots unchanged. -/
theorem parse_header_line_no_colonsp_invalid
    (l : List Char) (name0 value0 : Option (List Char))
    (h : strstr l colonsp = none) :
    parse_header_line (some l) name0 value0 = (name0, value0, -1) := by
  have h1 : get_prefix_c (some l) colonsp = none := by simp [get_prefix_c, h]
  simp [parse_header_line, h1]

/-- Witness for the amended C5 at a concrete input. -/
theorem parse_header_line_no_colonsp_invalid_witness :
    parse_header_line (some "Junk\r\n".toList) none none = (none, none, -1) :=
  parse_header_line_no_colonsp_invalid "Junk\r\n".toList none none (by decide)

/-- C9: `parse_host_field` splits its input on the first `":"`: if no `":"`
occurs, hostname is the whole input and the port slot keeps its caller value;
if `":"` occurs but is the last character, the port slot keeps its caller
value; otherwise the characters after the first `":"` are decoded with `atoi`
into the port slot (and, by the last conjunct, a digit-free remainder decodes
to 0 rather than failing), with hostname the text before the `":"`. -/
theorem parse_host_field_spec :
    (∀ (host : List Char) (h0 : Option (List Char)) (p0 : Int), ':' ∉ host →
        parse_host_field host h0 p0 = (some host, p0)) ∧
    (∀ (pre : List Char) (h0 : Option (List Char)) (p0 : Int), ':' ∉ pre →
        parse_host_field (pre ++ [':']) h0 p0 = (some pre, p0)) ∧
    (∀ (pre rest : List Char) (h0 : Option (List Char)) (p0 : Int),
        ':' ∉ pre → rest ≠ [] →
        parse_host_field (pre ++ ':' :: rest) h0 p0 = (some pre, atoi rest)) ∧
    (∀ rest : List Char, rest.all (fun c => !c.isDigit) = true → atoi rest = 0) := by
  refine ⟨?_, ?_, ?_, atoi_no_digit⟩
  · intro host h0 p0 hh
    have h1 : get_prefix_c (some host) colon = none := gp_single_none host ':' hh
    simp [parse_host_field, h1]
  · intro pre h0 p0 hp
    have h1 : get_prefix_c (some (pre ++ [':'])) colon = some (pre, []) :=
      gp_single pre [] ':' hp
    simp [parse_host_field, h1]
  · intro pre rest h0 p0 hp hr
    have h1 : get_prefix_c (some (pre ++ ':' :: rest)) colon = some (pre, rest) :=
      gp_single pre rest ':' hp
    have h2 : rest.length > 0 := List.length_pos.mpr hr
    simp [parse_host_field, h1, h2]

/-- Witness for C9 at concrete inputs: `parse_host_field("a.com:8080")` yields
hostname `"a.com"` and port 8080. -/
theorem parse_host_field_spec_witness :
    parse_host_field "a.com:8080".toList none 0 = (some "a.com".toList, 8080) :=
  parse_host_field_spec.2.2.1 "a.com".toList "8080".toList none 0
    (by decide) (by decide)

/-- C8: for every status line whose three tokens are delimited as expected
(`" "`, `" "`, `"\r\n"`) and whose status-code token contains no digit,
`parse_status_line` succeeds -- whatever the initial out-slot values `s` and
the garbage local `g` -- and the status code decodes to 0 (the leading-
digit-run decoding of `atoi`) rather than the parse failing. -/
theorem parse_status_line_lenient (s : StatusOut) (g : Option (List Char))
    (vv sc ph rest : List Char)
    (hv : ' ' ∉ vv) (hsc : ' ' ∉ sc) (hph : strstr ph crlf = none)
    (hnum : sc.all (fun c => !c.isDigit) = true) :
    parse_status_line (some (vv ++ ' ' :: (sc ++ ' ' :: (ph ++ crlf ++ rest)))) s g =
      .ret { out_version := some vv, out_status_code := 0, out_phrase := some ph }
        ((vv.length + sc.length + ph.length + 4 : Nat) : Int) := by
  have h1 : get_prefix_c (some (vv ++ ' ' :: (sc ++ ' ' :: (ph ++ crlf ++ rest)))) sp =
      some (vv, sc ++ ' ' :: (ph ++ crlf ++ rest)) := gp_single vv _ ' ' hv
  have h2 : get_prefix_c (some (sc ++ ' ' :: (ph ++ crlf ++ rest))) sp =
      some (sc, ph ++ crlf ++ rest) := gp_single sc _ ' ' hsc
  have h3 : get_prefix_c (some (ph ++ crlf ++ rest)) crlf = some (ph, rest) :=
    gp_crlf ph rest hph
  simp only [parse_status_line, h1, h2, h3]
  rw [atoi_no_digit sc hnum]
  have hlen : (vv ++ ' ' :: (sc ++ ' ' :: (ph ++ crlf ++ rest))).length - rest.length =
      vv.length + sc.length + ph.length + 4 := by
    simp [crlf]
    omega
  rw [hlen]

/-- Witness for C8 at a concrete input: `"HTTP/1.1 ABC OK\r\n"` parses with
status code 0 and consumed length 17. -/
theorem parse_status_line_lenient_witness :
    parse_status_line (some "HTTP/1.1 ABC OK\r\n".toList) ⟨none, 5, none⟩ none =
      .ret ⟨some "HTTP/1.1".toList, 0, some "OK".toList⟩ 17 :=
  parse_status_line_lenient ⟨none, 5, none⟩ none "HTTP/1.1".toList "ABC".toList
    "OK".toList [] (by decide) (by decide) (by decide) (by decide)

/-- C2: for every buffer of length `n` (the stored bytes being exactly the
declared `n` bytes, `n` within C `int` range) in which the first occurrence of
`"\r\n\r\n"` starts at offset `pos` (it occurs there and at no earlier
offset), `parse_body_head` returns head = bytes `[0, pos+2)` with head length
`pos+2` (head retains its own trailing `"\r\n"` but excludes the blank line)
and body = bytes `[pos+4, n)` with body length `n-(pos+4)`, possibly zero. -/
theorem parse_body_head_split (b : List Char) (pos : Nat) (s : SplitOut)
    (h1 : crlf2.isPrefixOf (b.drop pos) = true)
    (h2 : ∀ j, j < pos → crlf2.isPrefixOf (b.drop j) = false)
    (hn : b.length < 2 ^ 31) :
    parse_body_head (some b) (b.length : Int) s =
      some { out_head := some (b.take (pos + 2)),
             out_head_len := ((pos : Int) + 2),
             out_body := some (b.drop (pos + 4)),
             out_body_len := ((b.length : Int) - ((pos : Int) + 4)) } := by
  have hfind : strstr b crlf2 = some pos := (strstr_some_iff b crlf2 pos).mpr ⟨h1, h2⟩
  have hle : pos + 4 ≤ b.length := by
    have hpre := List.isPrefixOf_iff_prefix.mp h1
    have h4 := hpre.length_le
    rw [List.length_drop] at h4
    have : crlf2.length = 4 := rfl
    omega
  have hx : ((b.length : Int) - (pos : Int) - 4) % (2 ^ 32 : Int) =
      ((b.length : Int) - (pos : Int) - 4) := by
    apply Int.emod_eq_of_lt
    · omega
    · omega
  have hxt : (((b.length : Int) - (pos : Int) - 4) % (2 ^ 32 : Int)).toNat =
      b.length - pos - 4 := by
    rw [hx]
    omega
  simp only [parse_body_head, hfind, hxt]
  have hcond : pos + 4 + (b.length - pos - 4) ≤ b.length := by omega
  rw [if_pos hcond]
  have hbody : (b.drop (pos + 4)).take (b.length - pos - 4) = b.drop (pos + 4) := by
    have hlen2 : (b.drop (pos + 4)).length = b.length - pos - 4 := by
      rw [List.length_drop]
      omega
    rw [← hlen2, List.take_length]
  rw [hbody]
  have hcast : ((b.length - pos - 4 : Nat) : Int) = (b.length : Int) - ((pos : Int) + 4) := by
    omega
  rw [hcast]

/-- Witness for C2 at a concrete input: `"A\r\n\r\nBC"` with the separator
first at offset 1 splits into head `"A\r\n"` (length 3) and body `"BC"`
(length 2). -/
theorem parse_body_head_split_witness :
    parse_body_head (some "A\r\n\r\nBC".toList) 7 ⟨none, 0, none, 0⟩ =
      some ⟨some "A\r\n".toList, 3, some "BC".toList, 2⟩ :=
  parse_body_head_split "A\r\n\r\nBC".toList 1 ⟨none, 0, none, 0⟩
    (by decide) (by decide) (by decide)

/-- C10: for every buffer whose scanned bytes contain no `"\r\n\r\n"` (the
separator starts at no offset of the stored string), `parse_body_head` is a
no-op: it reports the message incomplete by returning without writing, and
every output slot (head, head length, body, body length) retains its original
caller-supplied value `s`. -/
theorem parse_body_head_noop (b : List Char) (n : Int) (s : SplitOut)
    (h : ∀ j, j ≤ b.length → crlf2.isPrefixOf (b.drop j) = false) :
    parse_body_head (some b) n s = some s := by
  have hall : ∀ j, crlf2.isPrefixOf (b.drop j) = false := by
    intro j
    rcases le_or_lt j b.length with hj | hj
    · exact h j hj
    · have hnil : b.drop j = [] := List.drop_eq_nil_of_le (by omega)
      rw [hnil]
      rfl
  have hfind : strstr b crlf2 = none := (strstr_none_iff b crlf2).mpr hall
  simp [parse_body_head, hfind]

/-- Witness for C10 at a concrete input. -/
theorem parse_body_head_noop_witness :
    parse_body_head (some "AB".toList) 2 ⟨some ['x'], 9, none, 7⟩ =
      some ⟨some ['x'], 9, none, 7⟩ :=
  parse_body_head_noop "AB".toList 2 ⟨some ['x'], 9, none, 7⟩ (by decide)

/-- C1 is violated by the code: `parse_body_head` does NOT depend only on the
first `n` declared bytes.  Stored buffer `"A\r\n\r\n"` with declared length
`n = 1`: the first 1 byte contains no `"\r\n\r\n"`, so per the claim the call
must be a no-op reporting Incomplete; instead `strstr` scans past offset `n`,
finds the separator at offset 1, writes the head slots, computes the body size
`n - 3 - 2` in unsigned arithmetic (wrapping to `2^32 - 4`) and `memcpy`s that
many bytes from past the end of the buffer -- undefined behaviour, `none` in
the model, not the no-op `some s`. -/
theorem parse_body_head_reads_past_length :
    strstr ("A\r\n\r\n".toList.take 1) crlf2 = none ∧
    parse_body_head (some "A\r\n\r\n".toList) 1 ⟨none, 0, none, 0⟩ = none := by
  decide

/-- A request whose single header line `"Junk"` is malformed (no `": "`). -/
def c3req : List Char := "GET / HTTP/1.1\r\nJunk\r\n".toList

/-- A response whose single header line `"Junk"` is malformed (no `": "`). -/
def c3resp : List Char := "HTTP/1.1 200 OK\r\nJunk\r\n".toList

/-- Fact: `parse_header_line` fails at every offset from 0 to 16 of `c3req`
(the string contains no `": "` at all). -/
theorem c3req_fail : ∀ k : Nat, k ≤ 16 →
    parse_header_line (some (c3req.drop k)) none none = (none, none, -1) := by
  decide

/-- Fact: `parse_header_line` fails at every offset from 0 to 17 of `c3resp`. -/
theorem c3resp_fail : ∀ k : Nat, k ≤ 17 →
    parse_header_line (some (c3resp.drop k)) none none = (none, none, -1) := by
  decide

/-- On `c3req` the request header loop never exits normally: every failed
`parse_header_line` moves the cursor back by one, so from any cursor in
`[-1, 16]` the loop either runs out of fuel or walks off the front of the
buffer. -/
theorem reqLoop_stuck (fuel : Nat) : ∀ (st : Int) (h0 : Option (List Char)),
    -1 ≤ st → st ≤ 16 →
    requestHeaderLoop fuel c3req st 22 h0 = .outOfFuel ∨
    requestHeaderLoop fuel c3req st 22 h0 = .ub := by
  induction fuel with
  | zero =>
    intro st h0 _ _
    left
    rfl
  | succ fuel ih =>
    intro st h0 hlo hhi
    have hlt : st < 22 := by omega
    by_cases hneg : st < 0
    · right
      simp only [requestHeaderLoop]
      rw [if_pos hlt, if_pos hneg]
    · have hk : st.toNat ≤ 16 := by omega
      have hfail := c3req_fail st.toNat hk
      have hstep : requestHeaderLoop (fuel + 1) c3req st 22 h0 =
          requestHeaderLoop fuel c3req (st + (-1)) 22 h0 := by
        simp only [requestHeaderLoop]
        rw [if_pos hlt, if_neg hneg, hfail]
        simp [hostStr]
      rw [hstep]
      exact ih (st + (-1)) h0 (by omega) (by omega)

/-- On `c3resp` the response header loop never exits normally, for any initial
content-length and cache-control slots. -/
theorem respLoop_stuck (fuel : Nat) : ∀ (st : Int) (clen : Int) (cc : Option (List Char)),
    -1 ≤ st → st ≤ 17 →
    responseHeaderLoop fuel c3resp st 23 clen cc = .outOfFuel ∨
    responseHeaderLoop fuel c3resp st 23 clen cc = .ub := by
  induction fuel with
  | zero =>
    intro st clen cc _ _
    left
    rfl
  | succ fuel ih =>
    intro st clen cc hlo hhi
    have hlt : st < 23 := by omega
    by_cases hneg : st < 0
    · right
      simp only [responseHeaderLoop]
      rw [if_pos hlt, if_pos hneg]
    · have hk : st.toNat ≤ 17 := by omega
      have hfail := c3resp_fail st.toNat hk
      have hstep : responseHeaderLoop (fuel + 1) c3resp st 23 clen cc =
          responseHeaderLoop fuel c3resp (st + (-1)) 23 clen cc := by
        simp only [responseHeaderLoop]
        rw [if_pos hlt, if_neg hneg, hfail]
        simp [contentLengthStr, cacheControlStr]
      rw [hstep]
      exact ih (st + (-1)) clen cc (by omega) (by omega)

/-- C3 is violated by the code: the header-scanning loops of
`parse_request_head` and `parse_response_head` do NOT terminate on every
null-terminated head.  On `"GET / HTTP/1.1\r\nJunk\r\n"` (and its response
counterpart) the malformed header line makes `parse_header_line` return `-1`,
the cursor moves BACKWARD each iteration instead of strictly advancing, and
for every amount of fuel the loop has either still not finished or has walked
off the front of the buffer (an out-of-bounds read). -/
theorem header_loops_diverge (fuel : Nat) :
    (parse_request_head fuel c3req none = .outOfFuel ∨
     parse_request_head fuel c3req none = .ub) ∧
    (parse_response_head fuel c3resp ⟨none, 0, none⟩ none 0 none = .outOfFuel ∨
     parse_response_head fuel c3resp ⟨none, 0, none⟩ none 0 none = .ub) := by
  constructor
  · have hp : parse_request_line (some c3req) =
        some ("GET".toList, "/".toList, "HTTP/1.1".toList, 16) := by decide
    have hl : ((c3req.length : Nat) : Int) = 22 := by decide
    have hred : parse_request_head fuel c3req none =
        requestHeaderLoop fuel c3req 16 22 none := by
      simp only [parse_request_head, hp, hl]
      norm_num
    rw [hred]
    exact reqLoop_stuck fuel 16 none (by omega) (by omega)
  · have hs : parse_status_line (some c3resp) ⟨none, 0, none⟩ none =
        .ret ⟨some "HTTP/1.1".toList, 200, some "OK".toList⟩ 17 := by decide
    have hl : ((c3resp.length : Nat) : Int) = 23 := by decide
    rcases respLoop_stuck fuel 17 0 none (by omega) (by omega) with h | h
    · left
      simp only [parse_response_head, hs, hl, h]
    · right
      simp only [parse_response_head, hs, hl, h]

/-- The head `"NOSPACES\r\n"`, whose first line is invalid (no `" "`
delimiter, so `parse_request_line` / `parse_status_line` return `-1`). -/
def c4head : List Char := "NOSPACES\r\n".toList

/-- C4 is violated by the code: when the first line is invalid, the head parse
does NOT abort.  Neither `parse_request_head` nor `parse_response_head` checks
the `-1` return value: each adds it to the cursor and enters the header loop
at offset `-1`, reading before the start of the buffer -- undefined behaviour
(`ub`), not a clean stop with the header-derived fields left absent. -/
theorem first_line_invalid_enters_loop (fuel : Nat) (sc0 clen0 : Int)
    (g cc0 : Option (List Char)) :
    parse_request_head (fuel + 1) c4head none = .ub ∧
    parse_response_head (fuel + 1) c4head ⟨none, sc0, none⟩ g clen0 cc0 = .ub := by
  constructor
  · have hp : parse_request_line (some c4head) = none := by decide
    have hl : ((c4head.length : Nat) : Int) = 10 := by decide
    have hred : parse_request_head (fuel + 1) c4head none =
        requestHeaderLoop (fuel + 1) c4head (-1) 10 none := by
      simp only [parse_request_head, hp, hl]
    rw [hred]
    simp only [requestHeaderLoop]
    norm_num
  · have hg : get_prefix_c (some c4head) sp = none := by decide
    have hs : parse_status_line (some c4head) ⟨none, sc0, none⟩ g =
        .ret ⟨none, sc0, none⟩ (-1) := by
      simp [parse_status_line, hg]
    have hl : ((c4head.length : Nat) : Int) = 10 := by decide
    simp only [parse_response_head, hs, hl]
    have hloop : responseHeaderLoop (fuel + 1) c4head (-1) 10 clen0 cc0 = .ub := by
      simp only [responseHeaderLoop]
      norm_num
    rw [hloop]
